import Mathlib

/-!
# Verification of the Rental-Properties address-resolution pipeline

Shallow embedding of the address-resolution core of the repository
(`scripts/api/translate.py`, `scripts/api/geocode.py`,
`scripts/address/separate.py`, `scripts/address/lookup.py`,
`scripts/address/load.py`) together with proofs and refutations of the
frozen specification claims.

Python strings are modelled by Lean `String`; Python dicts that hold
address components are modelled by ordered association lists
(`List (String × String)`), which preserves the insertion order that the
merging code in `geocode.py` relies on.  External services (HTTP geocoding
providers, the `re` module's compiled patterns, the rapidfuzz scorer) are
modelled by explicit function parameters, so theorems quantify over their
behaviour; concrete instantiations used in counterexamples follow the real
behaviour of the source on the inputs involved.
-/

namespace Rental

/-! ## Python string primitives -/

/-- Python `str.strip()` (ASCII whitespace suffices for the inputs
considered): drop leading and trailing whitespace. -/
def pyStrip (s : String) : String :=
  (((s.data.dropWhile Char.isWhitespace).reverse.dropWhile
      Char.isWhitespace).reverse).asString

/-- Python `str.lower()` restricted to ASCII letters, which is all the
lowercasing behaviour the pipeline's address keys exercise in the claims. -/
def pyLower (s : String) : String := (s.data.map Char.toLower).asString

/-- Does the first list start the second one? -/
def leadsList : List Char → List Char → Bool
  | [], _ => true
  | _ :: _, [] => false
  | a :: as, b :: bs => a = b && leadsList as bs

/-- Does `sub` occur contiguously inside `l`? -/
def occursIn (sub : List Char) : List Char → Bool
  | [] => sub.isEmpty
  | c :: cs => leadsList sub (c :: cs) || occursIn sub cs

/-- Python `sub in s` substring containment. -/
def strContains (s sub : String) : Bool := occursIn sub.data s.data

/-- Remove the first contiguous occurrence of `old` (non-empty) from `l`. -/
def removeFirstOcc (old : List Char) : List Char → List Char
  | [] => []
  | c :: cs =>
    if leadsList old (c :: cs) then (c :: cs).drop old.length
    else c :: removeFirstOcc old cs

/-- Python `s.replace(old, "", 1)`: remove the first occurrence of `old`
(assumed non-empty by the caller, as in `separate_regex_match`). -/
def replaceFirst (s old : String) : String :=
  (removeFirstOcc old.data s.data).asString

/-! ## `scripts/api/translate.py` -/

/-- Model of `is_non_english_string`: true iff the string has no "›" delimiter and is
not pure ASCII (`"›" not in string and not string.isascii()`). -/
def isNonEnglishString (s : String) : Bool :=
  !(strContains s "›") && !(s.data.all fun c => c.toNat < 128)

/-- Constant `MAX_SEGMENTS` from `translate.py`. -/
def MAX_SEGMENTS : Nat := 128

/-- Constant `MAX_BYTES` from `translate.py`. -/
def MAX_BYTES : Nat := 70000

/-- UTF-8 byte size of one character after JSON escaping, as produced by
`json.dumps(s, ensure_ascii=False)`: quotes and backslashes become 2-byte
escapes, the five short control escapes become 2 bytes, other control
characters become 6-byte `\uXXXX` escapes, everything else is emitted raw. -/
def jsonCharBytes (c : Char) : Nat :=
  if c = '"' || c = '\\' then 2
  else if c = Char.ofNat 8 || c = '\t' || c = '\n' || c = Char.ofNat 12 || c = '\r' then 2
  else if c.toNat < 32 then 6
  else c.utf8Size

/-- Byte length of `json.dumps(s, ensure_ascii=False).encode('utf-8')`:
two enclosing quotes plus the escaped characters. -/
def jsonStringBytes (s : String) : Nat :=
  2 + (s.data.map jsonCharBytes).sum

/-- The loop body of `chunk_segments_and_bytes`, with the running `batch`
and `batch_size` accumulators made explicit. -/
def chunkGo : List String → List String → Nat → List (List String)
  | [], batch, _ => if batch.isEmpty then [] else [batch]
  | s :: rest, batch, batchSize =>
    if jsonStringBytes s > MAX_BYTES then
      [s] :: chunkGo rest batch batchSize
    else if batch.length ≥ MAX_SEGMENTS
        || batchSize + jsonStringBytes s > MAX_BYTES then
      batch :: chunkGo rest [s] (jsonStringBytes s)
    else
      chunkGo rest (batch ++ [s]) (batchSize + jsonStringBytes s)

/-- Model of `chunk_segments_and_bytes(strings)` with the default limits. -/
def chunkSegmentsAndBytes (strings : List String) : List (List String) :=
  chunkGo strings [] 0

/-! ## `scripts/api/geocode.py`

A provider's parsed response (`query_yandex` / `query_nominatim` /
`query_azure` after their parser ran) is a Python dict of component
columns; we model it as an ordered association list.  An empty list models
the empty dict `{}` that every provider returns on failure.  The provider
query functions themselves perform HTTP and are modelled as parameters
`String → Response`. -/

/-- A parsed provider response: an insertion-ordered component dict. -/
abbrev Response := List (String × String)

/-- One step of the merge loop in `try_geocoders_on_row`:
`if response: for key, value in response.items(): if key not in results:
results[key] = value`.  Keys already present are never replaced. -/
def mergeResponse (results : Response) (response : Response) : Response :=
  if response.isEmpty then results
  else response.foldl
    (fun acc kv => if (acc.lookup kv.1).isSome then acc else acc ++ [kv]) results

/-- The provider chain `GEOCODERS` (insertion order of the `OrderedDict`):
Yandex, then Nominatim, then Azure; each paired with its query function. -/
def geocoders (yandex nominatim azure : String → Response) :
    List (String × (String → Response)) :=
  [("Yandex", yandex), ("Nominatim", nominatim), ("Azure", azure)]

/-- Model of `GEOCODERS_REVERSED = OrderedDict(reversed(list(GEOCODERS.items())))`. -/
def geocodersReversed (yandex nominatim azure : String → Response) :
    List (String × (String → Response)) :=
  (geocoders yandex nominatim azure).reverse

/-- The chain picked by `try_geocoders_on_row` for a candidate address:
`GEOCODERS if is_non_english_string(address) else GEOCODERS_REVERSED`. -/
def chainFor (yandex nominatim azure : String → Response) (address : String) :
    List (String × (String → Response)) :=
  if isNonEnglishString address then geocoders yandex nominatim azure
  else geocodersReversed yandex nominatim azure

/-- Body of `try_geocoders_on_row` over an explicit chain: the loop visits
every provider of the chain and merges each non-empty response. -/
def tryChain (chain : List (String × (String → Response))) (address : String) :
    Response :=
  chain.foldl (fun results p => mergeResponse results (p.2 address)) []

/-- Model of `try_geocoders_on_row(address)` for given provider query functions. -/
def tryGeocodersOnRow (yandex nominatim azure : String → Response)
    (address : String) : Response :=
  tryChain (chainFor yandex nominatim azure address) address

/-- The chain behaviour the spec describes instead (“stop at the first
provider that returns a non-empty normalized component set”), for
comparison with `tryChain`. -/
def tryChainSpecFirstStop (chain : List (String × (String → Response)))
    (address : String) : Response :=
  match chain with
  | [] => []
  | p :: rest =>
    let response := p.2 address
    if response.isEmpty then tryChainSpecFirstStop rest address else response

/-- The merge the spec's words describe instead: per field, the first
NON-EMPTY value among the responses in chain order. -/
def specFirstNonEmptyField (chain : List (String × (String → Response)))
    (address k : String) : Option String :=
  chain.findSome? fun p =>
    ((p.2 address).lookup k).bind fun v => if v = "" then none else some v

/-- A geocoding row, with the columns `geocode_row` reads and writes:
`Address`, `Translated`, `Status` (default `'Pending'`), and the merged
component columns. -/
structure GRow where
  address : String
  translated : String
  status : String
  fields : Response
  deriving Repr, DecidableEq

/-- Model of `address_candidates(row)`: the stripped, non-empty entries of
`(row.get(ADDRESS, ''), row.get(TRANSLATED, ''))`, in that order. -/
def addressCandidates (row : GRow) : List String :=
  [pyStrip row.address, pyStrip row.translated].filter (fun s => s ≠ "")

/-- Assignment `row[key] = value` over the component columns: replace an existing
binding for `key`, else append a new one. -/
def setField (fields : Response) (key value : String) : Response :=
  if (fields.lookup key).isSome then
    fields.map (fun kv => if kv.1 = key then (key, value) else kv)
  else fields ++ [(key, value)]

/-- Loop `for key, value in components.items(): row[key] = value`. -/
def setFields (fields : Response) (components : Response) : Response :=
  components.foldl (fun acc kv => setField acc kv.1 kv.2) fields

/-- Model of `geocode_row(row)`, with the whole provider chain abstracted as
`tryAll : String → Response` (the value of `try_geocoders_on_row` on a
candidate).  The Python body destructures
`[native_address, translated] = address_candidates(row)`, which raises
`ValueError` unless the candidate list has exactly two elements; the
`Except` models that exception escaping `geocode_row`. -/
def geocodeRow (tryAll : String → Response) (row : GRow) : Except String GRow :=
  if row.status = "OK" then .ok row
  else
    match addressCandidates row with
    | [native, translated] =>
      -- `if not (native_address or translated): row[STATUS] = 'FAILED'`
      if native = "" ∧ translated = "" then .ok { row with status := "FAILED" }
      else
        -- `for candidate in [native_address, translated]`
        let tryCandidate : String → Option GRow := fun candidate =>
          if candidate = "" then none
          else
            let components := tryAll candidate
            if components.isEmpty then none
            else some { row with status := "OK",
                                 fields := setFields row.fields components }
        match tryCandidate native with
        | some r => .ok r
        | none =>
          match tryCandidate translated with
          | some r => .ok r
          | none => .ok { row with status := "FAILED" }
    | _ => .error "ValueError: not exactly two values to unpack"

/-! ## `scripts/address/separate.py`

A compiled `re.Pattern` is modelled by its two uses in
`separate_regex_match`: `pattern.search(value)` (first match) and
`return_final_match` (last of the non-overlapping `finditer` matches),
each returning the matched substring when there is one. -/

/-- The observable behaviour of a compiled pattern. -/
structure RegexFun where
  search : String → Option String
  last : String → Option String

/-- Model of `separate_regex_match(value, pattern, reverse, trim=True)`: the matched
substring (or `""`), the first occurrence of it removed from the value,
both stripped. -/
def separateRegexMatch (p : RegexFun) (value : String) (reverse : Bool) :
    String × String :=
  let matched := (if reverse then p.last value else p.search value).getD ""
  let value1 := if matched ≠ "" then replaceFirst value matched else value
  (pyStrip value1, pyStrip matched)

/-- Table `NUMBERED_STREETS` (dict insertion order). -/
def numberedStreets : List (String × String) :=
  [("August", "August 23 Street"), ("Commissars", "26 Commissars Street")]

/-- The part of `assign_regex_match` that follows the extraction:
keep a non-empty existing target value (stripped), then the
`NUMBERED_STREETS` loop (only when assigning the `Building` column), then
`keep_original`.  Returns the new (source, target) pair. -/
def assignResolve (value trimmed0 matched0 targetVal : String)
    (assignIsBuilding keepOriginal : Bool) : String × String :=
  let matched1 := if pyStrip targetVal ≠ "" then pyStrip targetVal else matched0
  let tm := numberedStreets.foldl
    (fun (tm : String × String) ne =>
      if assignIsBuilding && strContains tm.1 ne.1 then (ne.2, "") else tm)
    (trimmed0, matched1)
  if keepOriginal then (value, tm.2) else tm

/-- The identities of the five compiled patterns used by the separator. -/
inductive PatternId where
  | blockRgx | laneRgx | buildingRgx | neighbourhoodSubdistrictsRgx | ordinalRgx
  deriving DecidableEq, Repr

/-- Model of `PATTERN_TO_STRING`: its keys are the objects `BLOCK_RGX`, `LANE_RGX`,
`BUILDING_RGX`, and the column-name strings `NEIGHBOURHOOD` and
`STREET_NUMBER` — not the patterns `NEIGHBOURHOOD_SUBDISTRICTS_RGX` and
`ORDINAL_RGX`.  Looking up those two patterns therefore raises `KeyError`,
modelled as `none`. -/
def patternToString : PatternId → Option String
  | .blockRgx => some "Block Pattern"
  | .laneRgx => some "Lane Pattern"
  | .buildingRgx => some "Building Code Pattern"
  | .neighbourhoodSubdistrictsRgx => none
  | .ordinalRgx => none

/-- Model of `assign_regex_match`, with the extraction step
(`separate_regex_match(value, pattern, reverse)`) abstracted as a fallible
function `sep` so that a raising extraction can be modelled.  The source
cell is `Option String` (`none` = pandas NA); the result is
`.error` when an exception escapes (including the handler's own
`PATTERN_TO_STRING[pattern]` lookup failing), `.ok none` when the handler
runs and the function returns Python `None`, and `.ok (some (src, tgt))`
for a normal return. -/
def assignRegexMatchE (pid : PatternId)
    (sep : String → Except String (String × String))
    (sourceVal : Option String) (targetVal : String)
    (assignIsBuilding keepOriginal : Bool) :
    Except String (Option (Option String × String)) :=
  match sourceVal with
  | none => .ok (some (none, targetVal))
  | some v =>
    match sep v with
    | .error e =>
      match patternToString pid with
      | some _ => .ok none
      | none => .error ("KeyError raised inside the handler: " ++ e)
    | .ok (trimmed0, matched0) =>
      let r := assignResolve v trimmed0 matched0 targetVal assignIsBuilding keepOriginal
      .ok (some (some r.1, r.2))

/-- Model of `assign_regex_match` when the extraction does not raise (the pure
regex path), returning the new (source, target) cell values. -/
def assignRegexMatch (p : RegexFun) (v : String) (targetVal : String)
    (assignIsBuilding reverse keepOriginal : Bool) : String × String :=
  let tm := separateRegexMatch p v reverse
  assignResolve v tm.1 tm.2 targetVal assignIsBuilding keepOriginal

/-- The row columns read and written by `separate_into_unique_components`. -/
structure SepRow where
  street : String
  translated : String
  neighbourhood : String
  block : String
  lane : String
  building : String
  streetNumber : String
  deriving Repr, DecidableEq

/-- The pass
`df[[TRANSLATED, BUILDING]] = df.apply(assign_regex_match(row, BUILDING_RGX,
TRANSLATED, BUILDING, reverse=True, keep_original=True))` of
`separate_into_unique_components`. -/
def translatedBuildingPass (buildingPattern : RegexFun) (r : SepRow) : SepRow :=
  let tm := assignRegexMatch buildingPattern r.translated r.building true true true
  { r with translated := tm.1, building := tm.2 }

/-! ### A computable matcher for `BUILDING_RGX`

`BUILDING_RGX` is `\b (?!\d{1,3}-?(st|nd|rd|th)\b) \d{1,3} G? L? \b`
(VERBOSE, IGNORECASE), where `G` is the group "hyphen or slash, then
`\d+`" and `L` is one ASCII letter.  The functions below implement exactly
its leftmost-greedy backtracking semantics on ASCII text. -/

/-- Python `\w` on the ASCII range. -/
def wordChar (c : Char) : Bool := c.isAlphanum || c = '_'

/-- Predicate `\b` between an optional previous character and the rest. -/
def boundaryB (prev next : Option Char) : Bool :=
  (match prev with | some c => wordChar c | none => false)
    != (match next with | some c => wordChar c | none => false)

/-- Test for `(st|nd|rd|th)\b` at the front, case-insensitively. -/
def ordinalStart (l : List Char) : Bool :=
  match l with
  | a :: b :: rest =>
    (((a.toLower = 's' && b.toLower = 't') || (a.toLower = 'n' && b.toLower = 'd'))
      || ((a.toLower = 'r' && b.toLower = 'd') || (a.toLower = 't' && b.toLower = 'h')))
    && !(match rest with | c :: _ => wordChar c | [] => false)
  | _ => false

/-- The negative lookahead `(?!\d{1,3}-?(st|nd|rd|th)\b)`: true iff the
lookahead's body can match at the front. -/
def negLook (l : List Char) : Bool :=
  (List.range 3).any fun i =>
    let k := i + 1
    let front := l.take k
    front.length = k && front.all Char.isDigit &&
      (let rest := l.drop k
       (match rest with
        | '-' :: r2 => ordinalStart r2 || ordinalStart rest
        | _ => ordinalStart rest))

/-- After the digit group: try the optional trailing `[a-zA-Z]?` greedily,
then require `\b`. -/
def tryLetterEnd (consumed rest : List Char) :
    Option (List Char × List Char) :=
  match rest with
  | c :: r2 =>
    if c.isAlpha then
      if boundaryB (some c) r2.head? then some (consumed ++ [c], r2)
      else if boundaryB consumed.getLast? rest.head? then some (consumed, rest)
      else none
    else if boundaryB consumed.getLast? rest.head? then some (consumed, rest)
    else none
  | [] => some (consumed, [])

/-- Try the optional separator-digits group (hyphen or slash, then `\d+`)
greedily — present first, then absent — continuing with `tryLetterEnd`. -/
def tryGroupEnd (consumed rest : List Char) :
    Option (List Char × List Char) :=
  match rest with
  | c :: r2 =>
    if c = '-' || c = '/' then
      let ds := r2.takeWhile Char.isDigit
      let r3 := r2.dropWhile Char.isDigit
      if ds.isEmpty then tryLetterEnd consumed rest
      else
        match tryLetterEnd (consumed ++ c :: ds) r3 with
        | some res => some res
        | none => tryLetterEnd consumed rest
    else tryLetterEnd consumed rest
  | [] => tryLetterEnd consumed []

/-- A full `BUILDING_RGX` match attempt at the current position (given the
preceding character for `\b`), returning the matched characters and the
rest on success. -/
def buildingMatchAt (prev : Option Char) (l : List Char) :
    Option (List Char × List Char) :=
  if !boundaryB prev l.head? then none
  else if negLook l then none
  else
    let tryK : Nat → Option (List Char × List Char) := fun k =>
      let front := l.take k
      if front.length = k && front.all Char.isDigit then
        tryGroupEnd front (l.drop k)
      else none
    ((tryK 3).orElse fun _ => (tryK 2).orElse fun _ => tryK 1)

/-- Model of `pattern.search`: the leftmost match. -/
def buildingSearchFrom : Option Char → List Char → Option (List Char)
  | prev, [] => (buildingMatchAt prev []).map Prod.fst
  | prev, c :: cs =>
    match buildingMatchAt prev (c :: cs) with
    | some m => some m.1
    | none => buildingSearchFrom (some c) cs

/-- The non-overlapping `finditer` matches (fuelled recursion; the fuel
`l.length + 1` always suffices because every step consumes a character). -/
def buildingMatchesGo : Nat → Option Char → List Char → List (List Char)
  | 0, _, _ => []
  | _ + 1, _, [] => []
  | fuel + 1, prev, c :: cs =>
    match buildingMatchAt prev (c :: cs) with
    | some (m, rest) =>
      if m.isEmpty then buildingMatchesGo fuel (some c) cs
      else m :: buildingMatchesGo fuel m.getLast? rest
    | none => buildingMatchesGo fuel (some c) cs

/-- Pattern `BUILDING_RGX` as a `RegexFun`. -/
def buildingRgx : RegexFun where
  search s := (buildingSearchFrom none s.data).map List.asString
  last s :=
    ((buildingMatchesGo (s.data.length + 1) none s.data).getLast?).map List.asString

/-- An already-separated row (every target field non-empty) whose
translated text contains the word "August". -/
def augRow : SepRow :=
  ⟨"Mashtots Avenue", "August", "Kentron", "4", "3rd Lane", "5", "2nd"⟩

/-! ## `scripts/address/lookup.py` -/

/-- Constant `FUZZY_MATCH_ACCURACY` from `settings.py`. -/
def FUZZY_MATCH_ACCURACY : Nat := 90

/-- Python `str.title()` on ASCII letters: a letter is uppercased when the
previous character is not a letter, lowercased otherwise. -/
def pyTitleGo : Bool → List Char → List Char
  | _, [] => []
  | prevAlpha, c :: cs =>
    if c.isAlpha then
      (if prevAlpha then c.toLower else c.toUpper) :: pyTitleGo true cs
    else c :: pyTitleGo false cs

/-- Python `str.title()`. -/
def pyTitle (s : String) : String := (pyTitleGo false s.data).asString

/-- Helper for `pySplit`: accumulate the current word (reversed). -/
def pySplitGo : List Char → List Char → List (List Char)
  | [], cur => if cur.isEmpty then [] else [cur.reverse]
  | c :: cs, cur =>
    if c.isWhitespace then
      if cur.isEmpty then pySplitGo cs [] else cur.reverse :: pySplitGo cs []
    else pySplitGo cs (c :: cur)

/-- Python `str.split()` with no argument: split on whitespace runs,
dropping empty pieces. -/
def pySplit (s : String) : List String :=
  (pySplitGo s.data []).map List.asString

/-- Python `s.replace(",", "")`: drop every comma. -/
def removeCommas (s : String) : String :=
  (s.data.filter (fun c => c ≠ ',')).asString

/-- One comparison step of `rapidfuzz.process.extractOne`: a candidate
must reach the cutoff to become the running best and must strictly exceed
the running best to replace it (so the first of tied bests is kept). -/
def extractStep (score : String → String → Nat) (query : String)
    (cutoff : Nat) (best : Option (String × Nat)) (c : String) :
    Option (String × Nat) :=
  match best with
  | none => if score query c ≥ cutoff then some (c, score query c) else none
  | some (_, sb) => if score query c > sb then some (c, score query c) else best

/-- Model of `rapidfuzz.process.extractOne(query, choices, score_cutoff=cutoff)`
for an abstract scorer: the first choice attaining the maximum score among
those scoring at least the cutoff, if any. -/
def extractOne (score : String → String → Nat) (query : String)
    (choices : List String) (cutoff : Nat) : Option String :=
  (choices.foldl (extractStep score query cutoff) none).map Prod.fst

/-- Model of `fuzzy_match(string, choices)`: first whitespace token of the
title-cased, comma-stripped string found verbatim in the choices, else the
`extractOne` fallback on the original string, else `""`.  The choice set's
iteration order is the list order. -/
def fuzzyMatch (score : String → String → Nat) (string : String)
    (choices : List String) : String :=
  match (pySplit (removeCommas (pyTitle string))).find?
      (fun w => choices.contains w) with
  | some w => w
  | none => (extractOne score string choices FUZZY_MATCH_ACCURACY).getD ""

/-- The JSON value under one province key of `armenian_region.json`:
either a list of Yerevan districts or a municipality → localities map. -/
inductive RegionData where
  | districts (ds : List String)
  | municipalities (ms : List (String × List String))
  deriving Repr, DecidableEq

/-- The triple built by `retrieve_armenian_regional_structure`: province
names (a set, modelled by the distinct key list), the administrative-unit →
province mapping and the locality → municipality mapping (dicts in
insertion order). -/
abbrev RegionalStructure :=
  List String × List (String × String) × List (String × String)

/-- The loop of `retrieve_armenian_regional_structure` over a non-empty
parsed JSON object. -/
def buildRegional (rs : List (String × RegionData)) : RegionalStructure :=
  rs.foldl
    (fun acc pr =>
      match pr.2 with
      | .districts ds =>
        (acc.1 ++ [pr.1], acc.2.1 ++ ds.map (fun d => (d, pr.1)), acc.2.2)
      | .municipalities ms =>
        (acc.1 ++ [pr.1],
         acc.2.1 ++ ms.map (fun m => (m.1, pr.1)),
         acc.2.2 ++ (ms.map (fun m => m.2.map (fun l => (l, m.1)))).flatten))
    ([], [], [])

/-- Model of `retrieve_armenian_regional_structure()`: the input is `none` when the
hierarchy file is absent, `some rs` when it exists and parses to the JSON
object `rs`.  An absent file returns the empty structures; a file holding
an empty object falls through the `if regional_structure:` guard and the
function implicitly returns Python `None` (modelled as `none`). -/
def retrieveArmenianRegionalStructure (file : Option (List (String × RegionData))) :
    Option RegionalStructure :=
  match file with
  | none => some ([], [], [])
  | some rs => if rs.isEmpty then none else some (buildRegional rs)

/-- The unpacking
`(provinces, administrative_units_mapping, locality_mapping) = retrieve…()`
at the top of `separate_hardcoded_regional_labels`: unpacking `None`
raises `TypeError`. -/
def unpackRegionalStructure (r : Option RegionalStructure) :
    Except String RegionalStructure :=
  match r with
  | some t => .ok t
  | none => .error "TypeError: cannot unpack non-iterable NoneType object"

/-! ## `scripts/address/load.py` -/

/-- Modelled from the spec: `scripts/address/__init__.py`, which defines
`TRAINING_INDEX_STEM`, is not under `src/`; the spec says row indices
are "prefixed per source dataset to avoid collision between the two input
datasets", so the two prefixes are distinct strings. -/
def TRAINING_INDEX_STEM : String := "Train"

/-- Modelled from the spec: `scripts/address/__init__.py`, which defines
`TESTING_INDEX_STEM`, is not under `src/`; see `TRAINING_INDEX_STEM`. -/
def TESTING_INDEX_STEM : String := "Test"

/-- Model of `save_index`: pair every raw row's address with its assigned index
`f"{fileindex}{i}"`. -/
def saveIndexPairs (fileIndex : String) (df : List String) :
    List (String × String) :=
  df.enum.map (fun p => (p.2, fileIndex ++ toString p.1))

/-- The grouping key of `map_address_indices`:
`combined[ADDRESS].str.strip().str.lower()`. -/
def normKey (a : String) : String := pyLower (pyStrip a)

/-- Lexicographic codepoint order on strings (the ascending key order of
`groupby`). -/
def charListLe : List Char → List Char → Bool
  | [], _ => true
  | _ :: _, [] => false
  | a :: as, b :: bs =>
    if a.toNat < b.toNat then true
    else if b.toNat < a.toNat then false
    else charListLe as bs

/-- Boolean string order used to present the grouped keys sorted. -/
def strLeB (a b : String) : Bool := charListLe a.data b.data

/-- Helper for `dedupFirst`: keep elements not seen before. -/
def dedupFirstGo (seen : List String) : List String → List String
  | [] => []
  | a :: l =>
    if seen.contains a then dedupFirstGo seen l
    else a :: dedupFirstGo (seen ++ [a]) l

/-- Keep the first occurrence of every element (`drop_duplicates`). -/
def dedupFirst (l : List String) : List String := dedupFirstGo [] l

/-- Model of `merge_on_unique`: concatenate, drop duplicates keeping the first
occurrence (the model carries no NaN entries). -/
def mergeOnUnique (series : List (List String)) : List String :=
  dedupFirst series.flatten

/-- The table `pd.concat([training, testing])` after both `save_index` calls: every
raw row as an (address, assigned index) pair. -/
def combinedPairs (training testing : List String) : List (String × String) :=
  saveIndexPairs TRAINING_INDEX_STEM training
    ++ saveIndexPairs TESTING_INDEX_STEM testing

/-- Step `combined[ADDRESS] = combined[ADDRESS].str.strip().str.lower()`: the
pairs re-keyed by the normalized address. -/
def keyedPairs (training testing : List String) : List (String × String) :=
  (combinedPairs training testing).map (fun p => (normKey p.1, p.2))

/-- The distinct group keys of a `groupby`, in its sorted ascending order. -/
def groupKeys (l : List (String × String)) : List String :=
  ((l.map Prod.fst).dedup).insertionSort (fun a b => strLeB a b = true)

/-- Model of `map_address_indices(training, testing)`: index both datasets, strip
and lowercase the addresses, and group the row indices per distinct
normalized address (`groupby` sorts its keys). -/
def mapAddressIndices (training testing : List String) :
    List (String × List String) :=
  (groupKeys (keyedPairs training testing)).map
    (fun k => (k, ((keyedPairs training testing).filter
        (fun p => p.1 = k)).map Prod.snd))

/-- Every row index assigned by the two `save_index` calls. -/
def allAssignedIndices (training testing : List String) : List String :=
  (combinedPairs training testing).map Prod.snd

/-- The address column and attached index list of the final table of
`process_address_mapping`: the deduplicated raw addresses (whose `Address`
column the intermediate stages never modify) left-merged on exact address
equality with `map_address_indices`' normalized-key table (`none` = the
NaN index list of an unmatched address; the map's keys are distinct, so
the left merge matches at most one row per address). -/
def processAddressIndexLists (training testing : List String) :
    List (String × Option (List String)) :=
  (mergeOnUnique [training, testing]).map
    (fun a => (a, ((mapAddressIndices training testing).find?
        (fun p => p.1 = a)).map Prod.snd))

/-! ## Helper lemmas on the provider merge -/

/-- Value `a` if present, else `b` — the per-field precedence of the merge. -/
def orO (a b : Option String) : Option String :=
  match a with
  | some v => some v
  | none => b

theorem orO_assoc (a b c : Option String) :
    orO (orO a b) c = orO a (orO b c) := by
  cases a <;> cases b <;> rfl

theorem lookup_append_single (k : String) (kv : String × String) :
    ∀ acc : Response,
      (acc ++ [kv]).lookup k
        = orO (acc.lookup k) (if k == kv.1 then some kv.2 else none) := by
  intro acc
  induction acc with
  | nil =>
    cases hkk : (k == kv.1) <;> simp [List.lookup, hkk, orO]
  | cons a as ih =>
    cases hka : (k == a.1) <;> simp [List.lookup, hka, orO, ih]

/-- One insertion step of the merge loop preserves existing bindings and
otherwise defers to the response. -/
theorem lookup_mergeFold (k : String) :
    ∀ (resp acc : Response),
      ((resp.foldl
        (fun acc kv => if (acc.lookup kv.1).isSome then acc else acc ++ [kv])
        acc).lookup k)
      = orO (acc.lookup k) (resp.lookup k) := by
  intro resp
  induction resp with
  | nil =>
    intro acc
    cases ha : acc.lookup k <;> simp [List.foldl, List.lookup, ha, orO]
  | cons kv rest ih =>
    intro acc
    simp only [List.foldl_cons, ih]
    by_cases hins : (acc.lookup kv.1).isSome
    · rw [if_pos hins]
      cases hkk : (k == kv.1) with
      | false => simp [List.lookup, hkk]
      | true =>
        have hk1 : k = kv.1 := eq_of_beq hkk
        rcases hsome : acc.lookup k with _ | v
        · rw [hk1] at hsome; rw [hsome] at hins; simp at hins
        · simp [List.lookup, hkk, hsome, orO]
    · rw [if_neg hins, lookup_append_single, orO_assoc]
      cases hkk : (k == kv.1) <;> simp [List.lookup, hkk, orO]

/-- Merging one provider response: an existing binding always wins, a
response binding fills only an absent key. -/
theorem lookup_mergeResponse (k : String) (results resp : Response) :
    (mergeResponse results resp).lookup k
      = orO (results.lookup k) (resp.lookup k) := by
  unfold mergeResponse
  by_cases he : resp.isEmpty
  · have hpe : resp = [] := by
      cases hpp : resp with
      | nil => rfl
      | cons a b => rw [hpp] at he; simp at he
    rw [if_pos he, hpe]
    cases ha : results.lookup k <;> simp [List.lookup, ha, orO]
  · rw [if_neg he, lookup_mergeFold]

/-- Field lookup in the merged result of `try_geocoders_on_row`'s loop:
per field, the value comes from the first response in chain order that
contains the field at all (empty responses contain no fields). -/
theorem lookup_tryChain (k : String) (address : String) :
    ∀ (chain : List (String × (String → Response))) (acc : Response),
      ((chain.foldl (fun results p => mergeResponse results (p.2 address)) acc).lookup k)
      = orO (acc.lookup k) (chain.findSome? fun p => (p.2 address).lookup k) := by
  intro chain
  induction chain with
  | nil =>
    intro acc
    cases ha : acc.lookup k <;> simp [List.foldl, List.findSome?, ha, orO]
  | cons p rest ih =>
    intro acc
    simp only [List.foldl_cons, ih, List.findSome?]
    rw [lookup_mergeResponse, orO_assoc]
    cases hp : (p.2 address).lookup k with
    | some v => simp [orO]
    | none => simp [orO]

/-- Function `tryChain` merges from the empty dict, so the merged field value is
the first one found along the chain. -/
theorem lookup_tryChain_nil (k address : String)
    (chain : List (String × (String → Response))) :
    (tryChain chain address).lookup k
      = chain.findSome? fun p => (p.2 address).lookup k := by
  unfold tryChain
  rw [lookup_tryChain]
  rfl

/-- A found field exists along the chain and conversely: used to show that
every provider of the chain is consulted. -/
theorem isSome_findSome_iff {α β : Type} (f : α → Option β) :
    ∀ l : List α, (l.findSome? f).isSome ↔ ∃ x ∈ l, (f x).isSome := by
  intro l
  induction l with
  | nil => simp [List.findSome?]
  | cons a as ih =>
    rw [List.findSome?]
    cases hfa : f a with
    | some b => simp [hfa]
    | none => simp [hfa, ih]

/-- Every element of `address_candidates` is a non-empty string. -/
theorem addressCandidates_ne_empty (row : GRow) :
    ∀ s ∈ addressCandidates row, s ≠ "" := by
  intro s hs
  unfold addressCandidates at hs
  have := (List.mem_filter.mp hs).2
  exact of_decide_eq_true this

/-! ## Claim C1 -/

/-- Claim C1 counterexample: for the non-English candidate `"Երևան"`,
Yandex (the first provider of the chain) returns the non-empty set
`{Street: A}`, yet the later provider Nominatim is still queried and its
novel field `Town` is merged into the result — whereas the chain the spec
describes stops at Yandex and returns only `{Street: A}`. -/
theorem claim_C1_counterexample :
    tryGeocodersOnRow (fun _ => [("Street", "A")]) (fun _ => [("Town", "B")])
        (fun _ => []) "Երևան"
      = [("Street", "A"), ("Town", "B")]
    ∧ tryChainSpecFirstStop
        (chainFor (fun _ => [("Street", "A")]) (fun _ => [("Town", "B")])
          (fun _ => []) "Երևան") "Երևան"
      = [("Street", "A")]
    ∧ ([("Street", "A"), ("Town", "B")] : Response) ≠ [("Street", "A")] := by
  exact ⟨by decide, by decide, by decide⟩

/-- Claim C1, amended: the provider chain does NOT stop at the first
provider returning a non-empty set — every provider of the chain is
consulted for the candidate and the responses are merged per field,
an earlier binding winning; what stops early is the candidate loop of
`geocode_row`: as soon as the merged result over the whole chain for the
first candidate is non-empty, the components are merged into the row, the
row is marked OK, and the second candidate is never considered.  The
first conjunct shows `geocode_row`'s result only depends on the first
candidate's merged components; the second shows a field returned by any
provider of the chain — however late — is present in the merged result. -/
theorem claim_C1_amended (yandex nominatim azure : String → Response)
    (row : GRow) (native translated : String)
    (hstatus : row.status ≠ "OK")
    (hcand : addressCandidates row = [native, translated])
    (hnonempty : tryGeocodersOnRow yandex nominatim azure native ≠ []) :
    geocodeRow (tryGeocodersOnRow yandex nominatim azure) row
      = .ok ⟨row.address, row.translated, "OK",
          setFields row.fields (tryGeocodersOnRow yandex nominatim azure native)⟩
    ∧ ∀ k, ((tryGeocodersOnRow yandex nominatim azure native).lookup k).isSome
        ↔ ∃ p ∈ chainFor yandex nominatim azure native,
            ((p.2 native).lookup k).isSome := by
  have hnative : native ≠ "" := by
    apply addressCandidates_ne_empty row
    rw [hcand]; exact List.mem_cons_self _ _
  constructor
  · unfold geocodeRow
    rw [if_neg hstatus, hcand]
    simp only []
    rw [if_neg (fun hand => hnative hand.1), if_neg hnative]
    have hie : (tryGeocodersOnRow yandex nominatim azure native).isEmpty = false := by
      cases hx : tryGeocodersOnRow yandex nominatim azure native with
      | nil => exact absurd hx hnonempty
      | cons a b => rfl
    rw [hie]
    rfl
  · intro k
    unfold tryGeocodersOnRow
    rw [lookup_tryChain_nil]
    exact isSome_findSome_iff _ _

/-- Witness for `claim_C1_amended`: a pending row with two non-empty
candidates whose first candidate Yandex resolves. -/
theorem claim_C1_amended_witness :
    (⟨"Երևան", "Yerevan", "Pending", []⟩ : GRow).status ≠ "OK"
    ∧ addressCandidates ⟨"Երևան", "Yerevan", "Pending", []⟩ = ["Երևան", "Yerevan"]
    ∧ tryGeocodersOnRow (fun _ => [("Street", "A")]) (fun _ => []) (fun _ => [])
        "Երևան" ≠ []
    ∧ geocodeRow
        (tryGeocodersOnRow (fun _ => [("Street", "A")]) (fun _ => []) (fun _ => []))
        ⟨"Երևան", "Yerevan", "Pending", []⟩
      = .ok ⟨"Երևան", "Yerevan", "OK", [("Street", "A")]⟩ := by
  refine ⟨by decide, by decide, by decide, ?_⟩
  exact (claim_C1_amended (fun _ => [("Street", "A")]) (fun _ => []) (fun _ => [])
    ⟨"Երևան", "Yerevan", "Pending", []⟩ "Երևան" "Yerevan"
    (by decide) (by decide) (by decide)).1

/-! ## Claim C5 -/

/-- Claim C5 counterexample: for the Latin-script candidate `"Abovyan"`
the chain starts with Azure; an Azure response can bind `Street` to the
empty string (its parser writes
`f"{address.get('streetName','')} {address.get('streetNumber','')}".strip()`,
which is `""` when both keys are absent).  The merge keeps that empty
binding, so the merged `Street` is `""` and NOT the first non-empty value
(Nominatim's), contradicting the claim. -/
theorem claim_C5_counterexample :
    (tryGeocodersOnRow (fun _ => []) (fun _ => [("Street", "Abovyan Street")])
        (fun _ => [("Street", ""), ("Town", "Yerevan")]) "Abovyan").lookup "Street"
      = some ""
    ∧ specFirstNonEmptyField
        (chainFor (fun _ => []) (fun _ => [("Street", "Abovyan Street")])
          (fun _ => [("Street", ""), ("Town", "Yerevan")]) "Abovyan")
        "Abovyan" "Street"
      = some "Abovyan Street"
    ∧ isNonEnglishString "Abovyan" = false
    ∧ (some "" : Option String) ≠ some "Abovyan Street" := by
  exact ⟨by decide, by decide, by decide, by decide⟩

/-- Claim C5, amended: per field, the merged result keeps the value of the
first provider response in chain order that CONTAINS the field at all —
even an empty-string value — and a later provider never overwrites a field
already present: merging any further response preserves every existing
binding. -/
theorem claim_C5_amended (yandex nominatim azure : String → Response)
    (address k : String) :
    (tryGeocodersOnRow yandex nominatim azure address).lookup k
      = (chainFor yandex nominatim azure address).findSome?
          (fun p => (p.2 address).lookup k)
    ∧ ∀ (results resp : Response) (v : String),
        results.lookup k = some v →
        (mergeResponse results resp).lookup k = some v := by
  constructor
  · unfold tryGeocodersOnRow
    exact lookup_tryChain_nil _ _ _
  · intro results resp v hv
    rw [lookup_mergeResponse, hv]
    rfl

/-- Witness for `claim_C5_amended`: an earlier empty-string `Street`
binding survives the merge of a later non-empty one. -/
theorem claim_C5_amended_witness :
    ([("Street", "")] : Response).lookup "Street" = some ""
    ∧ (mergeResponse [("Street", "")] [("Street", "Abovyan Street")]).lookup "Street"
      = some "" := by
  refine ⟨by decide, ?_⟩
  exact (claim_C5_amended (fun _ => []) (fun _ => []) (fun _ => []) "x" "Street").2
    [("Street", "")] [("Street", "Abovyan Street")] "" (by decide)

/-! ## Claim C2 -/

/-- Claim C2 (code bug): a row whose translated address is empty and whose
native address is non-empty makes `geocode_row` raise `ValueError` —
`address_candidates` filters out the empty entry, and the destructuring
`[native_address, translated] = address_candidates(row)` needs exactly two
elements — instead of completing with an `OK`/`FAILED` status as the spec
requires.  The claim is right and the code is wrong: the guards
`if not (native_address or translated)` and `if not candidate: continue`
in the same function only make sense if empty candidates flow through. -/
theorem claim_C2_single_empty_candidate_raises :
    geocodeRow (fun _ => []) ⟨"Yerevan", "", "Pending", []⟩
      = .error "ValueError: not exactly two values to unpack"
    ∧ geocodeRow (fun _ => [("Street", "Abovyan")]) ⟨"Yerevan", "", "Pending", []⟩
      = .error "ValueError: not exactly two values to unpack"
    ∧ addressCandidates ⟨"Yerevan", "", "Pending", []⟩ = ["Yerevan"] := by
  exact ⟨rfl, rfl, by decide⟩

/-! ## Claim C6 -/

/-- Claim C6 counterexample: for the non-English-script candidate
`"Երևան"` the chain is `GEOCODERS` = (Yandex, Nominatim, Azure), so the
first provider queried is Yandex — not the native-script provider
Nominatim as the claim states. -/
theorem claim_C6_counterexample :
    (chainFor (fun _ => []) (fun _ => []) (fun _ => []) "Երևան").map Prod.fst
      = ["Yandex", "Nominatim", "Azure"]
    ∧ isNonEnglishString "Երևան" = true
    ∧ (["Yandex", "Nominatim", "Azure"].head? = some "Nominatim") = False := by
  refine ⟨by decide, by decide, by simp⟩

/-- Claim C6, amended: for a non-English-script candidate the chain order
is Yandex, Nominatim, Azure (the Latin-oriented provider last); for a
Latin-script candidate the order is reversed, Azure first.  Consequently,
in the merged result a field returned by Yandex wins for non-English
candidates, and one returned by Azure wins for Latin candidates. -/
theorem claim_C6_amended (yandex nominatim azure : String → Response)
    (address k v : String) :
    (isNonEnglishString address = true →
      (chainFor yandex nominatim azure address).map Prod.fst
        = ["Yandex", "Nominatim", "Azure"]
      ∧ ((yandex address).lookup k = some v →
          (tryGeocodersOnRow yandex nominatim azure address).lookup k = some v))
    ∧ (isNonEnglishString address = false →
      (chainFor yandex nominatim azure address).map Prod.fst
        = ["Azure", "Nominatim", "Yandex"]
      ∧ ((azure address).lookup k = some v →
          (tryGeocodersOnRow yandex nominatim azure address).lookup k = some v)) := by
  constructor
  · intro h
    constructor
    · simp [chainFor, h, geocoders]
    · intro hv
      unfold tryGeocodersOnRow
      rw [lookup_tryChain_nil]
      simp [chainFor, h, geocoders, List.findSome?, hv]
  · intro h
    constructor
    · simp [chainFor, h, geocoders, geocodersReversed]
    · intro hv
      unfold tryGeocodersOnRow
      rw [lookup_tryChain_nil]
      simp [chainFor, h, geocoders, geocodersReversed, List.findSome?, hv]

/-- Witness for `claim_C6_amended` at concrete inputs. -/
theorem claim_C6_amended_witness :
    isNonEnglishString "Երևան" = true
    ∧ (chainFor (fun _ => [("Street", "A")]) (fun _ => []) (fun _ => []) "Երևան").map Prod.fst
        = ["Yandex", "Nominatim", "Azure"]
    ∧ (tryGeocodersOnRow (fun _ => [("Street", "A")]) (fun _ => []) (fun _ => []) "Երևան").lookup "Street"
        = some "A" := by
  refine ⟨by decide, ?_, ?_⟩
  · exact ((claim_C6_amended (fun _ => [("Street", "A")]) (fun _ => []) (fun _ => [])
      "Երևան" "Street" "A").1 (by decide)).1
  · exact ((claim_C6_amended (fun _ => [("Street", "A")]) (fun _ => []) (fun _ => [])
      "Երևան" "Street" "A").1 (by decide)).2 (by decide)

/-! ## Claim C7 -/

/-- Claim C7 (code bug): when the extraction step raises while processing
a single row, `assign_regex_match`'s handler looks the pattern up in
`PATTERN_TO_STRING`, whose keys for the street-number and neighbourhood
entries are the column-name strings rather than the compiled patterns
`ORDINAL_RGX` and `NEIGHBOURHOOD_SUBDISTRICTS_RGX`; for those two patterns
the handler itself raises `KeyError`, so the error does propagate to the
caller.  For the three patterns that are dict keys the handler returns
Python `None` (`​.ok none`) instead of the row's unchanged field values. -/
theorem claim_C7_extraction_error_handling (e sourceVal targetVal : String)
    (assignIsBuilding keepOriginal : Bool) :
    assignRegexMatchE .ordinalRgx (fun _ => .error e) (some sourceVal) targetVal
        assignIsBuilding keepOriginal
      = .error ("KeyError raised inside the handler: " ++ e)
    ∧ assignRegexMatchE .neighbourhoodSubdistrictsRgx (fun _ => .error e)
        (some sourceVal) targetVal assignIsBuilding keepOriginal
      = .error ("KeyError raised inside the handler: " ++ e)
    ∧ assignRegexMatchE .blockRgx (fun _ => .error e) (some sourceVal) targetVal
        assignIsBuilding keepOriginal
      = .ok none := by
  exact ⟨rfl, rfl, rfl⟩

/-! ## Claim C4 -/

/-- Claim C4 counterexample: `augRow` has every target field non-empty
(`Building = "5"`), yet the translated-field building-extraction pass of
`separate_into_unique_components` overwrites `Building` with the empty
string: the `NUMBERED_STREETS` rule fires because `"August"` occurs in the
trimmed source and unconditionally sets the matched value to `""`, which
is then written over the populated target field.  (`BUILDING_RGX` finds no
match in `"August"`, so this is purely the numbered-street rule.)  Hence
an extraction pass CAN overwrite a target field holding a non-empty value,
and re-application is not change-free. -/
theorem claim_C4_counterexample :
    augRow.building = "5"
    ∧ (translatedBuildingPass buildingRgx augRow).building = ""
    ∧ translatedBuildingPass buildingRgx augRow ≠ augRow := by
  exact ⟨by decide, by decide, by decide⟩

/-- Claim C4, amended: an extraction pass preserves a populated target
field — the output target is the stripped existing value — EXCEPT when the
pass assigns the `Building` column and the trimmed source contains one of
the hardcoded numbered-street names ("August"/"Commissars"), in which case
the populated target is cleared to the empty string.  (The source field is
re-trimmed regardless, so re-applying the separator need not leave a row
unchanged.) -/
theorem claim_C4_amended (p : RegexFun) (v targetVal : String)
    (assignIsBuilding reverse keepOriginal : Bool)
    (h : pyStrip targetVal ≠ "") :
    (assignRegexMatch p v targetVal assignIsBuilding reverse keepOriginal).2
      = if assignIsBuilding = true
          ∧ (strContains (separateRegexMatch p v reverse).1 "August" = true
             ∨ strContains (separateRegexMatch p v reverse).1 "Commissars" = true)
        then "" else pyStrip targetVal := by
  unfold assignRegexMatch assignResolve numberedStreets
  simp only [List.foldl_cons, List.foldl_nil]
  rw [if_pos h]
  cases hb : assignIsBuilding with
  | false =>
    simp only [Bool.false_and, Bool.false_eq_true, if_false]
    cases keepOriginal <;> simp
  | true =>
    cases ha : strContains (separateRegexMatch p v reverse).1 "August" with
    | true =>
      have hc : strContains "August 23 Street" "Commissars" = false := by decide
      simp only [Bool.true_and, ha, if_true, hc, if_false]
      cases keepOriginal <;> simp [ha]
    | false =>
      cases hcc : strContains (separateRegexMatch p v reverse).1 "Commissars" with
      | true =>
        simp only [Bool.true_and, ha, hcc, Bool.false_eq_true, if_false, if_true]
        cases keepOriginal <;> simp [ha, hcc]
      | false =>
        simp only [Bool.true_and, ha, hcc, Bool.false_eq_true, if_false]
        cases keepOriginal <;> simp [ha, hcc]

/-- Witness for `claim_C4_amended` at the building pass on `"August"`. -/
theorem claim_C4_amended_witness :
    pyStrip "5" ≠ ""
    ∧ (assignRegexMatch buildingRgx "August" "5" true true true).2
      = if (true : Bool) = true
          ∧ (strContains (separateRegexMatch buildingRgx "August" true).1 "August" = true
             ∨ strContains (separateRegexMatch buildingRgx "August" true).1 "Commissars" = true)
        then "" else pyStrip "5" :=
  ⟨by decide, claim_C4_amended buildingRgx "August" "5" true true true (by decide)⟩

/-! ## Claim C10 -/

/-- The province component accumulated by the loop of
`retrieve_armenian_regional_structure` is exactly the key list. -/
theorem buildRegional_provinces :
    ∀ (rs : List (String × RegionData)) (acc : RegionalStructure),
      (rs.foldl
        (fun acc pr =>
          match pr.2 with
          | .districts ds =>
            (acc.1 ++ [pr.1], acc.2.1 ++ ds.map (fun d => (d, pr.1)), acc.2.2)
          | .municipalities ms =>
            (acc.1 ++ [pr.1],
             acc.2.1 ++ ms.map (fun m => (m.1, pr.1)),
             acc.2.2 ++ (ms.map (fun m => m.2.map (fun l => (l, m.1)))).flatten))
        acc).1 = acc.1 ++ rs.map Prod.fst := by
  intro rs
  induction rs with
  | nil => intro acc; simp
  | cons pr rest ih =>
    intro acc
    rcases pr with ⟨province, data⟩
    cases data with
    | districts ds => simp [ih]
    | municipalities ms => simp [ih]

/-- Claim C10: the hierarchy loader returns the empty structures exactly
when the source file is absent; a file that parses to an empty JSON object
instead yields Python `None`, and the unpacking at the top of
`separate_hardcoded_regional_labels` then raises `TypeError` rather than
proceeding; a non-empty object yields a structure whose province set is
the non-empty key set, so it is never the empty triple. -/
theorem claim_C10_regional_structure :
    retrieveArmenianRegionalStructure none = some ([], [], [])
    ∧ unpackRegionalStructure (retrieveArmenianRegionalStructure (some []))
        = .error "TypeError: cannot unpack non-iterable NoneType object"
    ∧ ∀ rs : List (String × RegionData), rs ≠ [] →
        retrieveArmenianRegionalStructure (some rs) = some (buildRegional rs)
        ∧ (buildRegional rs).1 = rs.map Prod.fst
        ∧ (buildRegional rs).1 ≠ [] := by
  refine ⟨rfl, rfl, ?_⟩
  intro rs hne
  have hfst : (buildRegional rs).1 = rs.map Prod.fst := by
    unfold buildRegional
    have := buildRegional_provinces rs ([], [], [])
    simpa using this
  refine ⟨?_, hfst, ?_⟩
  · cases rs with
    | nil => exact absurd rfl hne
    | cons a b => rfl
  · rw [hfst]
    intro hmap
    exact hne (List.map_eq_nil_iff.mp hmap)

/-- Witness for `claim_C10_regional_structure` at a one-province object. -/
theorem claim_C10_witness :
    retrieveArmenianRegionalStructure (some [("Yerevan", .districts ["Kentron"])])
      = some (buildRegional [("Yerevan", .districts ["Kentron"])])
    ∧ (buildRegional [("Yerevan", RegionData.districts ["Kentron"])]).1 = ["Yerevan"] := by
  refine ⟨((claim_C10_regional_structure).2.2 [("Yerevan", .districts ["Kentron"])] (by decide)).1, by decide⟩

/-! ## Claim C9 -/

theorem extractStep_none (score : String → String → Nat) (q : String)
    (cutoff : Nat) (c : String) :
    extractStep score q cutoff none c
      = if score q c ≥ cutoff then some (c, score q c) else none := rfl

theorem extractStep_some (score : String → String → Nat) (q : String)
    (cutoff : Nat) (b : String) (sb : Nat) (c : String) :
    extractStep score q cutoff (some (b, sb)) c
      = if score q c > sb then some (c, score q c) else some (b, sb) := rfl

/-- Soundness of the `extractOne` fold: a produced best is a choice (or
the initial best), scores at least the cutoff, bounds every scanned
choice, and never drops below the initial best. -/
theorem extractFold_spec (score : String → String → Nat) (q : String)
    (cutoff : Nat) :
    ∀ (l : List String) (init : Option (String × Nat)),
      (∀ b sb, init = some (b, sb) → sb = score q b ∧ cutoff ≤ sb) →
      (∀ c s, l.foldl (extractStep score q cutoff) init = some (c, s) →
        s = score q c ∧ cutoff ≤ s ∧ (init = some (c, s) ∨ c ∈ l)
        ∧ (∀ d ∈ l, score q d ≤ s) ∧ (∀ b sb, init = some (b, sb) → sb ≤ s))
      ∧ (l.foldl (extractStep score q cutoff) init = none →
        init = none ∧ ∀ d ∈ l, score q d < cutoff) := by
  intro l
  induction l with
  | nil =>
    intro init hinit
    constructor
    · intro c s hfold
      simp only [List.foldl_nil] at hfold
      rcases hinit c s hfold with ⟨h1, h2⟩
      refine ⟨h1, h2, Or.inl hfold, ?_, ?_⟩
      · intro d hd; cases hd
      · intro b sb hb
        rw [hfold] at hb
        injection hb with hb2
        injection hb2 with hb3 hb4
        omega
    · intro hfold
      simp only [List.foldl_nil] at hfold
      refine ⟨hfold, ?_⟩
      intro d hd; cases hd
  | cons c0 rest ih =>
    intro init hinit
    simp only [List.foldl_cons]
    have hstep : ∀ b sb, extractStep score q cutoff init c0 = some (b, sb) →
        sb = score q b ∧ cutoff ≤ sb := by
      intro b sb hb
      cases hini : init with
      | none =>
        rw [hini, extractStep_none] at hb
        by_cases hc : score q c0 ≥ cutoff
        · rw [if_pos hc] at hb
          injection hb with hb2
          injection hb2 with hb3 hb4
          subst hb3; subst hb4
          exact ⟨rfl, hc⟩
        · rw [if_neg hc] at hb; cases hb
      | some p =>
        rcases p with ⟨b0, sb0⟩
        rw [hini, extractStep_some] at hb
        rcases hinit b0 sb0 hini with ⟨hs0, hc0⟩
        by_cases hgt : score q c0 > sb0
        · rw [if_pos hgt] at hb
          injection hb with hb2
          injection hb2 with hb3 hb4
          subst hb3; subst hb4
          exact ⟨rfl, by omega⟩
        · rw [if_neg hgt] at hb
          injection hb with hb2
          injection hb2 with hb3 hb4
          subst hb3; subst hb4
          exact ⟨hs0, hc0⟩
    rcases ih (extractStep score q cutoff init c0) hstep with ⟨ihsome, ihnone⟩
    constructor
    · intro c s hfold
      rcases ihsome c s hfold with ⟨h1, h2, h3, h4, h5⟩
      refine ⟨h1, h2, ?_, ?_, ?_⟩
      · rcases h3 with h3 | h3
        · cases hini : init with
          | none =>
            rw [hini, extractStep_none] at h3
            by_cases hc : score q c0 ≥ cutoff
            · rw [if_pos hc] at h3
              injection h3 with h32
              injection h32 with h33 h34
              exact Or.inr (h33 ▸ List.mem_cons_self _ _)
            · rw [if_neg hc] at h3; cases h3
          | some p =>
            rcases p with ⟨b0, sb0⟩
            rw [hini, extractStep_some] at h3
            by_cases hgt : score q c0 > sb0
            · rw [if_pos hgt] at h3
              injection h3 with h32
              injection h32 with h33 h34
              exact Or.inr (h33 ▸ List.mem_cons_self _ _)
            · rw [if_neg hgt] at h3
              exact Or.inl h3
        · exact Or.inr (List.mem_cons_of_mem _ h3)
      · intro d hd
        rcases List.mem_cons.mp hd with hd | hd
        · subst hd
          cases hini : init with
          | none =>
            by_cases hc : score q d ≥ cutoff
            · exact h5 d (score q d)
                (by rw [hini, extractStep_none, if_pos hc])
            · omega
          | some p =>
            rcases p with ⟨b0, sb0⟩
            by_cases hgt : score q d > sb0
            · exact h5 d (score q d)
                (by rw [hini, extractStep_some, if_pos hgt])
            · have := h5 b0 sb0
                (by rw [hini, extractStep_some, if_neg hgt])
              omega
        · exact h4 d hd
      · intro b sb hb
        cases hini : init with
        | none => rw [hini] at hb; cases hb
        | some p =>
          rcases p with ⟨b0, sb0⟩
          rw [hini] at hb
          injection hb with hb2
          injection hb2 with hb3 hb4
          by_cases hgt : score q c0 > sb0
          · have h6 := h5 c0 (score q c0)
              (by rw [hini, extractStep_some, if_pos hgt])
            omega
          · have h6 := h5 b0 sb0
              (by rw [hini, extractStep_some, if_neg hgt])
            omega
    · intro hfold
      rcases ihnone hfold with ⟨hstep0, hrest⟩
      cases hini : init with
      | none =>
        rw [hini, extractStep_none] at hstep0
        by_cases hc : score q c0 ≥ cutoff
        · rw [if_pos hc] at hstep0; cases hstep0
        · refine ⟨rfl, ?_⟩
          intro d hd
          rcases List.mem_cons.mp hd with hd | hd
          · subst hd; omega
          · exact hrest d hd
      | some p =>
        rcases p with ⟨b0, sb0⟩
        rw [hini, extractStep_some] at hstep0
        by_cases hgt : score q c0 > sb0
        · rw [if_pos hgt] at hstep0; cases hstep0
        · rw [if_neg hgt] at hstep0; cases hstep0

/-- A best of `(q, 100)` is never displaced when all scores are at most
100. -/
theorem extractFold_keep (score : String → String → Nat) (q : String)
    (cutoff : Nat) :
    ∀ l : List String, (∀ d ∈ l, score q d ≤ 100) →
      l.foldl (extractStep score q cutoff) (some (q, 100)) = some (q, 100) := by
  intro l
  induction l with
  | nil => intro _; rfl
  | cons c rest ih =>
    intro hle
    simp only [List.foldl_cons]
    have hc : ¬ score q c > 100 := by
      have := hle c (List.mem_cons_self _ _)
      omega
    rw [extractStep_some, if_neg hc]
    exact ih (fun d hd => hle d (List.mem_cons_of_mem _ hd))

/-- A query equal to a choice, scoring 100 while every other choice scores
below 100, always ends up as the extracted best. -/
theorem extractFold_exact (score : String → String → Nat) (q : String) :
    ∀ (l : List String) (init : Option (String × Nat)),
      q ∈ l → (∀ d ∈ l, score q d ≤ 100) →
      (∀ d ∈ l, d ≠ q → score q d < 100) → score q q = 100 →
      (init = none ∨ ∃ b sb, init = some (b, sb) ∧ sb < 100) →
      l.foldl (extractStep score q FUZZY_MATCH_ACCURACY) init = some (q, 100) := by
  intro l
  induction l with
  | nil => intro init hq; cases hq
  | cons c rest ih =>
    intro init hq hle hlt h100 hinit
    simp only [List.foldl_cons]
    by_cases hc : c = q
    · have hs100 : score q c = 100 := by rw [hc, h100]
      have hcut : FUZZY_MATCH_ACCURACY = 90 := rfl
      have hstep : extractStep score q FUZZY_MATCH_ACCURACY init c
          = some (c, 100) := by
        rcases hinit with hinit | ⟨b, sb, hinit, hsb⟩
        · rw [hinit, extractStep_none, if_pos (by omega), hs100]
        · rw [hinit, extractStep_some, if_pos (by omega), hs100]
      rw [hstep, hc]
      exact extractFold_keep score q FUZZY_MATCH_ACCURACY rest
        (fun d hd => hle d (List.mem_cons_of_mem _ hd))
    · have hqrest : q ∈ rest := by
        rcases List.mem_cons.mp hq with h | h
        · exact absurd h.symm hc
        · exact h
      have hclt : score q c < 100 := hlt c (List.mem_cons_self _ _) hc
      apply ih (extractStep score q FUZZY_MATCH_ACCURACY init c) hqrest
        (fun d hd => hle d (List.mem_cons_of_mem _ hd))
        (fun d hd hdq => hlt d (List.mem_cons_of_mem _ hd) hdq) h100
      rcases hinit with hinit | ⟨b, sb, hinit, hsb⟩
      · rw [hinit, extractStep_none]
        by_cases h90 : score q c ≥ FUZZY_MATCH_ACCURACY
        · rw [if_pos h90]
          exact Or.inr ⟨c, score q c, rfl, hclt⟩
        · rw [if_neg h90]
          exact Or.inl rfl
      · rw [hinit, extractStep_some]
        by_cases hgt : score q c > sb
        · rw [if_pos hgt]
          exact Or.inr ⟨c, score q c, rfl, hclt⟩
        · rw [if_neg hgt]
          exact Or.inr ⟨b, sb, rfl, hsb⟩

/-- Claim C9: `fuzzy_match` returns the first whitespace token of the
title-cased, comma-stripped query found verbatim in the choice set; only
with no token match does it fall back to `extractOne`, whose result — when
some choice reaches the cutoff 90 — is the first best-scoring choice, and
`""` when no choice reaches 90; and a query equal to a choice, scoring
100 while every other choice scores below 100, is the one the fallback
selects. -/
theorem claim_C9_fuzzy_match (score : String → String → Nat) (string : String)
    (choices : List String) :
    (∀ w, (pySplit (removeCommas (pyTitle string))).find?
        (fun w => choices.contains w) = some w →
      fuzzyMatch score string choices = w)
    ∧ ((pySplit (removeCommas (pyTitle string))).find?
        (fun w => choices.contains w) = none →
      (∀ c, extractOne score string choices FUZZY_MATCH_ACCURACY = some c →
        fuzzyMatch score string choices = c
        ∧ c ∈ choices ∧ FUZZY_MATCH_ACCURACY ≤ score string c
        ∧ ∀ d ∈ choices, score string d ≤ score string c)
      ∧ (extractOne score string choices FUZZY_MATCH_ACCURACY = none →
        fuzzyMatch score string choices = ""
        ∧ ∀ d ∈ choices, score string d < FUZZY_MATCH_ACCURACY)
      ∧ (string ∈ choices → score string string = 100 →
        (∀ d ∈ choices, score string d ≤ 100) →
        (∀ d ∈ choices, d ≠ string → score string d < 100) →
        fuzzyMatch score string choices = string)) := by
  constructor
  · intro w hw
    unfold fuzzyMatch
    rw [hw]
  · intro hnone
    have hfz : fuzzyMatch score string choices
        = (extractOne score string choices FUZZY_MATCH_ACCURACY).getD "" := by
      unfold fuzzyMatch
      rw [hnone]
    refine ⟨?_, ?_, ?_⟩
    · intro c hc
      rcases hfold : choices.foldl
          (extractStep score string FUZZY_MATCH_ACCURACY) none with _ | p
      · unfold extractOne at hc
        rw [hfold] at hc; cases hc
      · rcases p with ⟨c1, s⟩
        have hc1 : c1 = c := by
          unfold extractOne at hc
          rw [hfold] at hc
          injection hc
        subst hc1
        rcases ((extractFold_spec score string FUZZY_MATCH_ACCURACY choices none
            (by intro b sb hb; cases hb)).1 c1 s hfold) with ⟨h1, h2, h3, h4, _⟩
        rcases h3 with h3 | h3
        · cases h3
        · refine ⟨by rw [hfz, hc]; rfl, h3, by omega, ?_⟩
          intro d hd
          have := h4 d hd
          omega
    · intro hc
      rcases hfold : choices.foldl
          (extractStep score string FUZZY_MATCH_ACCURACY) none with _ | p
      · rcases ((extractFold_spec score string FUZZY_MATCH_ACCURACY choices none
            (by intro b sb hb; cases hb)).2 hfold) with ⟨_, h⟩
        exact ⟨by rw [hfz, hc]; rfl, h⟩
      · unfold extractOne at hc
        rw [hfold] at hc; cases hc
    · intro hmem h100 hle hlt
      have hfold := extractFold_exact score string choices none hmem hle hlt
        h100 (Or.inl rfl)
      rw [hfz]
      unfold extractOne
      rw [hfold]
      rfl

/-- Witness for `claim_C9_fuzzy_match`: the all-lowercase query equal to
its single choice is selected by the fallback (its title-cased token is
not in the choice set, so the token stage does not fire). -/
theorem claim_C9_witness :
    (pySplit (removeCommas (pyTitle "yerevan"))).find?
        (fun w => ["yerevan"].contains w) = none
    ∧ fuzzyMatch (fun q c => if q = c then 100 else 0) "yerevan" ["yerevan"]
        = "yerevan" := by
  refine ⟨by decide, ?_⟩
  exact ((claim_C9_fuzzy_match (fun q c => if q = c then 100 else 0) "yerevan"
      ["yerevan"]).2 (by decide)).2.2 (by decide) (by decide)
    (by intro d hd; by_cases h : "yerevan" = d <;> simp [h])
    (by intro d hd hne
        rcases List.mem_singleton.mp hd with rfl
        exact absurd rfl hne)

/-! ## Claim C8 -/

/-- Invariant of the batching loop: starting from a batch within both
limits whose recorded size is its byte sum, every emitted batch is either
an oversize singleton or within both limits, and the emitted batches are a
permutation of the pending batch plus the remaining input. -/
theorem chunkGo_spec :
    ∀ (rest batch : List String) (size : Nat),
      size = (batch.map jsonStringBytes).sum →
      batch.length ≤ MAX_SEGMENTS →
      size ≤ MAX_BYTES →
      (∀ b ∈ chunkGo rest batch size,
        (∃ s, b = [s] ∧ jsonStringBytes s > MAX_BYTES)
        ∨ (b.length ≤ MAX_SEGMENTS ∧ (b.map jsonStringBytes).sum ≤ MAX_BYTES))
      ∧ (chunkGo rest batch size).flatten.Perm (batch ++ rest) := by
  intro rest
  induction rest with
  | nil =>
    intro batch size hsize hlen hbytes
    unfold chunkGo
    by_cases hb : batch.isEmpty
    · have hbe : batch = [] := by
        cases hbb : batch with
        | nil => rfl
        | cons x xs => rw [hbb] at hb; simp at hb
      rw [if_pos hb, hbe]
      constructor
      · intro b hbm
        cases hbm
      · simp
    · rw [if_neg hb]
      constructor
      · intro b hbm
        rcases List.mem_singleton.mp hbm with rfl
        exact Or.inr ⟨hlen, hsize ▸ hbytes⟩
      · simp
  | cons s rest' ih =>
    intro batch size hsize hlen hbytes
    unfold chunkGo
    by_cases hbig : jsonStringBytes s > MAX_BYTES
    · rw [if_pos hbig]
      rcases ih batch size hsize hlen hbytes with ⟨ihmem, ihperm⟩
      constructor
      · intro b hbm
        rcases List.mem_cons.mp hbm with rfl | hbm
        · exact Or.inl ⟨s, rfl, hbig⟩
        · exact ihmem b hbm
      · have h1 : ([s] :: chunkGo rest' batch size).flatten
            = s :: (chunkGo rest' batch size).flatten := rfl
        rw [h1]
        exact (ihperm.cons s).trans List.perm_middle.symm
    · rw [if_neg hbig]
      by_cases hflush : batch.length ≥ MAX_SEGMENTS
          ∨ size + jsonStringBytes s > MAX_BYTES
      · have hcond : (decide (batch.length ≥ MAX_SEGMENTS)
            || decide (size + jsonStringBytes s > MAX_BYTES)) = true := by
          rcases hflush with h | h
          · simp [h]
          · simp [h]
        rw [if_pos hcond]
        have hsize1 : jsonStringBytes s = ([s].map jsonStringBytes).sum := by simp
        rcases ih [s] (jsonStringBytes s) hsize1
            (by simp [MAX_SEGMENTS]) (by omega) with ⟨ihmem, ihperm⟩
        constructor
        · intro b hbm
          rcases List.mem_cons.mp hbm with rfl | hbm
          · exact Or.inr ⟨hlen, hsize ▸ hbytes⟩
          · exact ihmem b hbm
        · have h1 : (batch :: chunkGo rest' [s] (jsonStringBytes s)).flatten
              = batch ++ (chunkGo rest' [s] (jsonStringBytes s)).flatten := rfl
          rw [h1]
          exact List.Perm.append_left batch ihperm
      · have hcond : (decide (batch.length ≥ MAX_SEGMENTS)
            || decide (size + jsonStringBytes s > MAX_BYTES)) = false := by
          push_neg at hflush
          simp only [Bool.or_eq_false_iff, decide_eq_false_iff_not]
          exact ⟨by omega, by omega⟩
        rw [if_neg (by rw [hcond]; exact Bool.false_ne_true)]
        push_neg at hflush
        have hsize2 : size + jsonStringBytes s
            = ((batch ++ [s]).map jsonStringBytes).sum := by
          simp [hsize]
        rcases ih (batch ++ [s]) (size + jsonStringBytes s) hsize2
            (by simp; omega) (by omega) with ⟨ihmem, ihperm⟩
        refine ⟨ihmem, ?_⟩
        have h2 : (batch ++ [s]) ++ rest' = batch ++ s :: rest' := by
          rw [List.append_assoc]; rfl
        exact h2 ▸ ihperm

/-- Claim C8: every batch yielded by `chunk_segments_and_bytes` either is
a singleton whose string alone exceeds the 70000-byte limit, or holds at
most 128 segments with at most 70000 cumulative bytes (byte size measured
on the JSON-encoded string); and the yielded batches partition the input —
every input string lands in exactly one batch. -/
theorem claim_C8_batching (strings : List String) :
    (∀ b ∈ chunkSegmentsAndBytes strings,
      (∃ s, b = [s] ∧ jsonStringBytes s > MAX_BYTES)
      ∨ (b.length ≤ MAX_SEGMENTS ∧ (b.map jsonStringBytes).sum ≤ MAX_BYTES))
    ∧ (chunkSegmentsAndBytes strings).flatten.Perm strings := by
  have h := chunkGo_spec strings [] 0 (by simp) (by simp [MAX_SEGMENTS])
    (by simp [MAX_BYTES])
  unfold chunkSegmentsAndBytes
  exact ⟨h.1, by simpa using h.2⟩

/-- Witness for `claim_C8_batching` on a concrete input list. -/
theorem claim_C8_witness :
    chunkSegmentsAndBytes ["ab", "cd"] = [["ab", "cd"]]
    ∧ (chunkSegmentsAndBytes ["ab", "cd"]).flatten.Perm ["ab", "cd"] :=
  ⟨by decide, (claim_C8_batching ["ab", "cd"]).2⟩

/-! ## Claim C3 -/

theorem dedupFirstGo_mem (x : String) :
    ∀ (l seen : List String), x ∈ dedupFirstGo seen l ↔ x ∈ l ∧ x ∉ seen := by
  intro l
  induction l with
  | nil => intro seen; simp [dedupFirstGo]
  | cons a l' ih =>
    intro seen
    unfold dedupFirstGo
    by_cases hs : seen.contains a
    · rw [if_pos hs, ih]
      have ha : a ∈ seen := by simpa using hs
      constructor
      · rintro ⟨h1, h2⟩
        exact ⟨List.mem_cons_of_mem _ h1, h2⟩
      · rintro ⟨h1, h2⟩
        rcases List.mem_cons.mp h1 with rfl | h1
        · exact absurd ha h2
        · exact ⟨h1, h2⟩
    · rw [if_neg hs]
      have ha : a ∉ seen := by simpa using hs
      constructor
      · intro h
        rcases List.mem_cons.mp h with rfl | h
        · exact ⟨List.mem_cons_self _ _, ha⟩
        · rcases (ih (seen ++ [a])).mp h with ⟨h1, h2⟩
          refine ⟨List.mem_cons_of_mem _ h1, fun hx => h2 ?_⟩
          exact List.mem_append.mpr (Or.inl hx)
      · rintro ⟨h1, h2⟩
        rcases List.mem_cons.mp h1 with rfl | h1
        · exact List.mem_cons_self _ _
        · by_cases hxa : x = a
          · subst hxa; exact List.mem_cons_self _ _
          · refine List.mem_cons_of_mem _ ((ih (seen ++ [a])).mpr ⟨h1, ?_⟩)
            intro hx
            rcases List.mem_append.mp hx with hx | hx
            · exact h2 hx
            · exact hxa (List.mem_singleton.mp hx)

theorem dedupFirstGo_nodup :
    ∀ (l seen : List String), (dedupFirstGo seen l).Nodup := by
  intro l
  induction l with
  | nil => intro seen; simp [dedupFirstGo]
  | cons a l' ih =>
    intro seen
    unfold dedupFirstGo
    by_cases hs : seen.contains a
    · rw [if_pos hs]; exact ih seen
    · rw [if_neg hs]
      refine List.nodup_cons.mpr ⟨?_, ih (seen ++ [a])⟩
      intro hmem
      rcases (dedupFirstGo_mem a l' (seen ++ [a])).mp hmem with ⟨_, h2⟩
      exact h2 (List.mem_append.mpr (Or.inr (List.mem_singleton.mpr rfl)))

theorem dedupFirstGo_length :
    ∀ (l seen : List String), (dedupFirstGo seen l).length ≤ l.length := by
  intro l
  induction l with
  | nil => intro seen; simp [dedupFirstGo]
  | cons a l' ih =>
    intro seen
    unfold dedupFirstGo
    by_cases hs : seen.contains a
    · rw [if_pos hs]
      have := ih seen
      simp only [List.length_cons]
      omega
    · rw [if_neg hs]
      have := ih (seen ++ [a])
      simp only [List.length_cons]
      omega

/-- Pulling one element's contribution out of a keyed group sum: if `a1`
occurs exactly once among the keys, prepending `x` to its group permutes
to prepending `x` to the whole flattened grouping. -/
theorem pullOut_perm (x : String) (g : String → List String) (a1 : String) :
    ∀ keys : List String, keys.Nodup → a1 ∈ keys →
      List.Perm
        ((keys.map (fun k => if a1 = k then x :: g k else g k)).flatten)
        (x :: (keys.map g).flatten) := by
  intro keys
  induction keys with
  | nil => intro _ h; cases h
  | cons k ks ih =>
    intro hnd hmem
    by_cases hk : a1 = k
    · have hks : ∀ k' ∈ ks, ¬ a1 = k' := by
        intro k' hk' heq
        have : k ∈ ks := by rw [← hk, heq]; exact hk'
        exact (List.nodup_cons.mp hnd).1 this
      have hmapeq : ks.map (fun k' => if a1 = k' then x :: g k' else g k')
          = ks.map g :=
        List.map_congr_left (fun k' hk' => by rw [if_neg (hks k' hk')])
      simp only [List.map_cons, if_pos hk, List.flatten_cons, hmapeq,
        List.cons_append]
      exact List.Perm.refl _
    · have hmem' : a1 ∈ ks := by
        rcases List.mem_cons.mp hmem with h | h
        · exact absurd h hk
        · exact h
      have ihp := ih (List.nodup_cons.mp hnd).2 hmem'
      simp only [List.map_cons, if_neg hk, List.flatten_cons]
      exact (List.Perm.append_left (g k) ihp).trans List.perm_middle

/-- The grouped row values, concatenated over any duplicate-free key list
covering every pair's key, are a permutation of all row values. -/
theorem partition_perm :
    ∀ (l : List (String × String)) (keys : List String), keys.Nodup →
      (∀ p ∈ l, p.1 ∈ keys) →
      List.Perm
        ((keys.map (fun k => (l.filter (fun p => p.1 = k)).map Prod.snd)).flatten)
        (l.map Prod.snd) := by
  intro l
  induction l with
  | nil =>
    intro keys _ _
    have hmapeq : keys.map
        (fun k => (List.filter (fun p => decide (p.1 = k)) []).map Prod.snd)
        = keys.map (fun _ => ([] : List String)) :=
      List.map_congr_left (fun k _ => rfl)
    rw [hmapeq]
    have hnil : (keys.map (fun _ => ([] : List String))).flatten = [] := by
      induction keys with
      | nil => rfl
      | cons k ks ihk => simp [ihk]
    rw [hnil]
    rfl
  | cons p l' ih =>
    intro keys hnd hcov
    have hcov' : ∀ q ∈ l', q.1 ∈ keys :=
      fun q hq => hcov q (List.mem_cons_of_mem _ hq)
    have hpk : p.1 ∈ keys := hcov p (List.mem_cons_self _ _)
    have hmapeq : keys.map
        (fun k => ((p :: l').filter (fun q => q.1 = k)).map Prod.snd)
        = keys.map (fun k => if p.1 = k
            then p.2 :: (l'.filter (fun q => q.1 = k)).map Prod.snd
            else (l'.filter (fun q => q.1 = k)).map Prod.snd) := by
      refine List.map_congr_left (fun k _ => ?_)
      rw [List.filter_cons]
      by_cases hc : p.1 = k
      · simp [hc]
      · simp [hc]
    rw [hmapeq]
    refine (pullOut_perm p.2 _ p.1 keys hnd hpk).trans ?_
    exact (ih keys hnd hcov').cons p.2

/-- Running `find?` over a key-indexed table built from a key list. -/
theorem find_groups (g : String → List String) (a : String) :
    ∀ keys : List String,
      (keys.map (fun k => (k, g k))).find? (fun q => q.1 = a)
        = if a ∈ keys then some (a, g a) else none := by
  intro keys
  induction keys with
  | nil => simp
  | cons k ks ih =>
    simp only [List.map_cons, List.find?_cons]
    by_cases hk : k = a
    · subst hk
      simp
    · have hdec : (decide ((k, g k).1 = a)) = false := by
        simp [hk]
      rw [hdec, ih]
      have hmemiff : (a ∈ k :: ks) ↔ (a ∈ ks) := by
        constructor
        · intro h
          rcases List.mem_cons.mp h with h | h
          · exact absurd h.symm hk
          · exact h
        · exact List.mem_cons_of_mem _
      by_cases ha : a ∈ ks
      · rw [if_pos ha, if_pos (hmemiff.mpr ha)]
      · rw [if_neg ha, if_neg (fun h => ha (hmemiff.mp h))]

/-- The address column of `save_index`'s output is the raw dataset. -/
theorem saveIndexPairs_fst (f : String) (df : List String) :
    (saveIndexPairs f df).map Prod.fst = df := by
  unfold saveIndexPairs
  rw [List.map_map]
  have hcomp : (Prod.fst ∘ fun p : Nat × String => (p.2, f ++ toString p.1))
      = Prod.snd := rfl
  rw [hcomp, List.enum_map_snd]

/-- The address column of the combined indexed datasets. -/
theorem combinedPairs_fst (training testing : List String) :
    (combinedPairs training testing).map Prod.fst = training ++ testing := by
  unfold combinedPairs
  rw [List.map_append, saveIndexPairs_fst, saveIndexPairs_fst]

/-- Claim C3 counterexample: one raw row whose address `"Yerevan"` is not
already lowercase.  The unique-address table keeps the raw text
`"Yerevan"` while the index map's key is the normalized `"yerevan"`, so
the final left merge attaches no index list (`none`), and the union of the
attached lists is empty instead of the assigned index set. -/
theorem claim_C3_counterexample :
    processAddressIndexLists ["Yerevan"] [] = [("Yerevan", none)]
    ∧ mapAddressIndices ["Yerevan"] []
        = [("yerevan", [TRAINING_INDEX_STEM ++ "0"])]
    ∧ allAssignedIndices ["Yerevan"] [] = [TRAINING_INDEX_STEM ++ "0"]
    ∧ ¬ List.Perm
        (((processAddressIndexLists ["Yerevan"] []).map
          (fun r => r.2.getD [])).flatten)
        (allAssignedIndices ["Yerevan"] []) := by
  refine ⟨by decide, by decide, by decide, ?_⟩
  intro h
  have h1 : (((processAddressIndexLists ["Yerevan"] []).map
      (fun r => r.2.getD [])).flatten) = ([] : List String) := by decide
  rw [h1] at h
  have h2 := h.nil_eq
  rw [show allAssignedIndices ["Yerevan"] [] = [TRAINING_INDEX_STEM ++ "0"]
    from by decide] at h2
  cases h2

/-- Claim C3, amended: the unique-address table never has more entries
than there are raw rows; and PROVIDED every raw address is already in its
normalized form (stripped and lowercase), the index lists attached to the
final table are a permutation of the assigned raw row indices — each index
in exactly one list, none twice.  (Without that proviso the left merge
compares raw unique addresses against normalized map keys, and a row whose
address text differs from its normalized form ends up in no index list, as
the counterexample shows.  The index map itself always partitions the
indices over the normalized keys.) -/
theorem claim_C3_amended (training testing : List String)
    (hT : ∀ a ∈ training, normKey a = a)
    (hU : ∀ a ∈ testing, normKey a = a) :
    (processAddressIndexLists training testing).length
        ≤ training.length + testing.length
    ∧ List.Perm (((mapAddressIndices training testing).map Prod.snd).flatten)
        (allAssignedIndices training testing)
    ∧ List.Perm (((processAddressIndexLists training testing).map
          (fun r => r.2.getD [])).flatten)
        (allAssignedIndices training testing) := by
  -- the keyed pairs coincide with the raw pairs under the normalization
  -- hypothesis
  have hkey : keyedPairs training testing = combinedPairs training testing := by
    unfold keyedPairs
    have hpt : ∀ p ∈ combinedPairs training testing, (normKey p.1, p.2) = p := by
      intro p hp
      have hp1 : p.1 ∈ training ++ testing := by
        rw [← combinedPairs_fst training testing]
        exact List.mem_map_of_mem Prod.fst hp
      rcases List.mem_append.mp hp1 with h | h
      · rw [hT p.1 h]
      · rw [hU p.1 h]
    exact (List.map_congr_left hpt).trans (List.map_id _)
  have hLfst : (keyedPairs training testing).map Prod.fst
      = training ++ testing := by
    rw [hkey, combinedPairs_fst]
  -- the group keys: duplicate-free, with the same members as the raw
  -- address list
  have hkeysperm := List.perm_insertionSort
    (fun a b => strLeB a b = true)
    (((keyedPairs training testing).map Prod.fst).dedup)
  have hknd : (groupKeys (keyedPairs training testing)).Nodup := by
    unfold groupKeys
    exact hkeysperm.nodup_iff.mpr (List.nodup_dedup _)
  have hkmem : ∀ a, a ∈ groupKeys (keyedPairs training testing)
      ↔ a ∈ training ++ testing := by
    intro a
    unfold groupKeys
    rw [hkeysperm.mem_iff, List.mem_dedup, hLfst]
  -- the unconditional partition of the index map
  have hmapsnd : (mapAddressIndices training testing).map Prod.snd
      = (groupKeys (keyedPairs training testing)).map
          (fun k => ((keyedPairs training testing).filter
            (fun p => p.1 = k)).map Prod.snd) := by
    unfold mapAddressIndices
    rw [List.map_map]
    rfl
  have hpartition := partition_perm (keyedPairs training testing)
    (groupKeys (keyedPairs training testing)) hknd
    (fun p hp => (hkmem p.1).mpr
      (by rw [← hLfst]; exact List.mem_map_of_mem Prod.fst hp))
  have hsnd : (keyedPairs training testing).map Prod.snd
      = allAssignedIndices training testing := by
    rw [hkey]; rfl
  have hmapperm : List.Perm
      (((mapAddressIndices training testing).map Prod.snd).flatten)
      (allAssignedIndices training testing) := by
    rw [hmapsnd, ← hsnd]
    exact hpartition
  -- the unique-address table: duplicate-free, same members as the raw
  -- address list
  have huniq_eq : mergeOnUnique [training, testing]
      = dedupFirstGo [] (training ++ (testing ++ [])) := rfl
  have huniqmem : ∀ a, a ∈ mergeOnUnique [training, testing]
      ↔ a ∈ training ++ testing := by
    intro a
    rw [huniq_eq, dedupFirstGo_mem]
    simp
  have huniqnd : (mergeOnUnique [training, testing]).Nodup := by
    rw [huniq_eq]; exact dedupFirstGo_nodup _ _
  refine ⟨?_, hmapperm, ?_⟩
  · unfold processAddressIndexLists
    rw [List.length_map, huniq_eq]
    have := dedupFirstGo_length (training ++ (testing ++ [])) []
    simp only [List.length_append, List.length_nil] at this
    omega
  · -- rewrite the final table's lists as the groups of its addresses
    have hfind : ∀ a ∈ mergeOnUnique [training, testing],
        (((mapAddressIndices training testing).find?
          (fun p => p.1 = a)).map Prod.snd).getD []
        = ((keyedPairs training testing).filter
            (fun p => p.1 = a)).map Prod.snd := by
      intro a ha
      have hmem : a ∈ groupKeys (keyedPairs training testing) :=
        (hkmem a).mpr ((huniqmem a).mp ha)
      unfold mapAddressIndices
      rw [find_groups, if_pos hmem]
      rfl
    have hmapmap : ((processAddressIndexLists training testing).map
        (fun r => r.2.getD []))
        = (mergeOnUnique [training, testing]).map
            (fun a => ((keyedPairs training testing).filter
              (fun p => p.1 = a)).map Prod.snd) := by
      unfold processAddressIndexLists
      rw [List.map_map]
      exact List.map_congr_left (fun a ha => hfind a ha)
    rw [hmapmap]
    -- the unique addresses are a permutation of the group keys
    have hperm_uniq_keys : List.Perm (mergeOnUnique [training, testing])
        (groupKeys (keyedPairs training testing)) := by
      refine (List.perm_ext_iff_of_nodup huniqnd hknd).mpr ?_
      intro a
      rw [huniqmem a, hkmem a]
    refine ((hperm_uniq_keys.map _).flatten).trans ?_
    rw [← hsnd]
    exact hpartition

/-- Witness for `claim_C3_amended` on already-normalized raw datasets. -/
theorem claim_C3_witness :
    (∀ a ∈ ["yerevan", "gyumri", "yerevan"], normKey a = a)
    ∧ (∀ a ∈ ["gyumri"], normKey a = a)
    ∧ (processAddressIndexLists ["yerevan", "gyumri", "yerevan"] ["gyumri"]).length ≤ 4
    ∧ List.Perm (((processAddressIndexLists ["yerevan", "gyumri", "yerevan"]
          ["gyumri"]).map (fun r => r.2.getD [])).flatten)
        (allAssignedIndices ["yerevan", "gyumri", "yerevan"] ["gyumri"]) := by
  refine ⟨by decide, by decide, ?_, ?_⟩
  · exact (claim_C3_amended ["yerevan", "gyumri", "yerevan"] ["gyumri"]
      (by decide) (by decide)).1
  · exact (claim_C3_amended ["yerevan", "gyumri", "yerevan"] ["gyumri"]
      (by decide) (by decide)).2.2

end Rental
